import Mathlib

/-!
Verification development for the trade ledger and execution core of the
claude-trading repository (execute_trades.py, claude_trader.py,
alpaca_trader.py, prepare_trading_data.py).

Conventions of the shallow embedding:
* Python `dict` objects (position snapshots) are modelled as insertion-ordered
  association lists `List (String × ℤ)`; `dict.get(k, d)` is `posGetD`,
  `d[k] = v` is `posSet` (update in place when the key is present, append
  otherwise), `k in d` is `hasKey`, and `d[k] -= v` on an absent key is a
  Python `KeyError`, modelled by the `keyError` outcome.
* Python float prices and cash amounts are modelled as integers `ℤ`: the
  modelled code only adds, subtracts, multiplies and compares them (never
  divides), so every algebraic property proved below is insensitive to the
  choice of ordered-ring carrier, and every concrete value named by the spec's
  scenarios (150.00, 10000, 8500.00, ...) is integral. The `:.2f` display
  formatting of messages is abstracted to `toString`.
* A `position.jsonl` file is a list of non-blank lines, each either parsing to
  a record (`some r`) or unreadable (`none`, where `json.loads` raises); an
  absent file is `none` at the outer `Option`.
* Wall-clock timing of the fill waiter (60 s deadline polled once per second)
  is abstracted to a finite list of poll results: the list ends when the
  deadline elapses.
-/

/-- Lower-casing as Python's `str.lower()` (ASCII range, which is all that the
action tokens use). -/
def lowerStr (s : String) : String := ⟨s.data.map Char.toLower⟩

/-- Upper-casing as Python's `str.upper()`. -/
def upperStr (s : String) : String := ⟨s.data.map Char.toUpper⟩

/-- A position snapshot: Python dict from symbol (or "CASH") to quantity. -/
abbrev Pos := List (String × ℤ)

/-- Python `d.get(k)` returning `None` when absent: first binding of `k`. -/
def posGet? (p : Pos) (k : String) : Option ℤ :=
  (p.find? (fun kv => kv.1 == k)).map (·.2)

/-- Python `d.get(k, dflt)`. -/
def posGetD (p : Pos) (k : String) (dflt : ℤ) : ℤ :=
  (posGet? p k).getD dflt

/-- Python `k in d`. -/
def hasKey (p : Pos) (k : String) : Bool :=
  p.any (fun kv => kv.1 == k)

/-- Python `d[k] = v`: update the key's binding in place when present (keeping
insertion order; dict keys are unique, so updating the first binding is dict
assignment), append at the end otherwise. -/
def posSet : Pos → String → ℤ → Pos
  | [], k, v => [(k, v)]
  | kv :: rest, k, v => if kv.1 == k then (k, v) :: rest else kv :: posSet rest k v

/-- The `this_action` object recorded inside a ledger record
(execute_trades.py lines 191-197 and 267; the `mode`, `reference_price` and
`slippage` bookkeeping fields are not modelled since no claim mentions them).
`price` is absent (`none`) on the `no_trade` record. -/
structure ActionData where
  action : String
  symbol : String
  amount : ℤ
  price : Option ℤ
  deriving DecidableEq, Repr

/-- One line of `position.jsonl` (execute_trades.py lines 205-212,
claude_trader.py lines 67-72 and 170-180). The genesis record written by
`initialize_position` has no `this_action` and no `datetime`. -/
structure PosRecord where
  datetime : Option String
  date : Option String
  id : ℤ
  thisAction : Option ActionData
  positions : Pos
  deriving DecidableEq, Repr

/-- The sort key used by `TradeExecutor.get_latest_position`
(execute_trades.py line 95): `x.get("datetime", x.get("date", ""))`. -/
def sortKey (r : PosRecord) : String :=
  r.datetime.getD (r.date.getD "")

/-- Reading all parseable lines of the file in order
(execute_trades.py lines 84-89): `json.loads` raises on the first unreadable
line and the exception propagates, failing the whole read. -/
def readRecords : List (Option PosRecord) → Except Unit (List PosRecord)
  | [] => .ok []
  | some r :: ls => (readRecords ls).map (r :: ·)
  | none :: _ => .error ()

/-- Lexicographic comparison of code-point sequences: Python's `<=` on
strings, used by `list.sort(key=...)` on the datetime keys. -/
def charListLe : List Char → List Char → Bool
  | [], _ => true
  | _ :: _, [] => false
  | a :: as, b :: bs =>
    if a.toNat < b.toNat then true
    else if b.toNat < a.toNat then false
    else charListLe as bs

/-- Python `s <= t` on strings (code-point lexicographic order). -/
def strLe (s t : String) : Bool := charListLe s.data t.data

/-- Insertion into a list sorted by `sortKey`, placing `x` before the first
element whose key is ≥ its own. -/
def insertByKey (x : PosRecord) : List PosRecord → List PosRecord
  | [] => [x]
  | y :: ys => if strLe (sortKey x) (sortKey y) then x :: y :: ys else y :: insertByKey x ys

/-- Stable sort by `sortKey`: elements with equal keys keep their file order,
exactly as Python's stable `list.sort(key=...)` (any two stable sorts with
respect to a total key order produce the same output list). -/
def stableSortByKey : List PosRecord → List PosRecord
  | [] => []
  | x :: xs => insertByKey x (stableSortByKey xs)

/-- Embedding of `TradeExecutor.get_latest_position` (execute_trades.py lines
78-103): absent file → `({}, -1, None, None)`; otherwise parse every line,
sort by the datetime key and return the fields of the last record. The outer
`Except` is the uncaught `json.loads` exception. -/
def getLatestPosition (file : Option (List (Option PosRecord))) :
    Except Unit (Pos × ℤ × Option String × Option String) :=
  match file with
  | none => .ok ([], -1, none, none)
  | some lines =>
    (readRecords lines).map (fun recs =>
      match (stableSortByKey recs).getLast? with
      | none => ([], -1, none, none)
      | some latest => (latest.positions, latest.id, latest.date, latest.datetime))

/-- Embedding of `ClaudeTrader.get_latest_position` (claude_trader.py lines
76-94): iterate the lines in file order, keeping the last record's fields. -/
def claudeScan (acc : Pos × ℤ × Option String) :
    List (Option PosRecord) → Except Unit (Pos × ℤ × Option String)
  | [] => .ok acc
  | none :: _ => .error ()
  | some r :: ls => claudeScan (r.positions, r.id, r.date) ls

/-- Embedding of `ClaudeTrader.get_latest_position`, outer shape. -/
def claudeGetLatestPosition (file : Option (List (Option PosRecord))) :
    Except Unit (Pos × ℤ × Option String) :=
  match file with
  | none => .ok ([], -1, none)
  | some lines => claudeScan ([], -1, none) lines

/-- Appending one record to the ledger file (the `open(..., "a")` writes at
execute_trades.py lines 205-212 and 262-269): an unconditional append, with no
inspection of the existing records. -/
def appendRecord (ledger : List PosRecord) (r : PosRecord) : List PosRecord :=
  ledger ++ [r]

/-- Result of one `execute_trade` call: `ok` carries the updated position, the
record appended to `position.jsonl`, the message and the actual price; on
`rejected` the function returns `False` and nothing is appended; `keyError` is
the uncaught `KeyError` of `d[k] -= v` on an absent key. -/
inductive TradeOutcome where
  | ok (newPosition : Pos) (record : PosRecord) (message : String) (actualPrice : ℤ)
  | rejected (message : String)
  | keyError
  deriving DecidableEq, Repr

/-- Date extraction of execute_trades.py line 188:
`trading_datetime.split('T')[0] if 'T' in trading_datetime else
trading_datetime.split()[0]` (whitespace split approximated by a single-space
split). -/
def dateOfDatetime (dt : String) : String :=
  if dt.data.contains 'T' then ⟨dt.data.takeWhile (· != 'T')⟩
  else ⟨dt.data.takeWhile (· != ' ')⟩

/-- The position-update and append part of `TradeExecutor.execute_trade`
(execute_trades.py lines 166-215), parameterised by the price actually used
(`actualPrice`, which is the reference price in simulation mode and the broker
fill price in Alpaca mode). -/
def executeTradeCore (useAlpaca : Bool) (action symbol : String) (amount : ℤ)
    (actualPrice : ℤ) (currentPosition : Pos) (currentId : ℤ)
    (tradingDatetime : String) : TradeOutcome :=
  if action == "buy" then
    let requiredCash := actualPrice * (amount : ℤ)
    if posGetD currentPosition "CASH" 0 < requiredCash then
      .rejected ("Insufficient cash: need $" ++ toString requiredCash ++
        ", have $" ++ toString (posGetD currentPosition "CASH" 0))
    else if hasKey currentPosition "CASH" then
      let p1 := posSet currentPosition "CASH"
        (posGetD currentPosition "CASH" 0 - requiredCash)
      let p2 := posSet p1 symbol (posGetD p1 symbol 0 + (amount : ℤ))
      .ok p2
        { datetime := some tradingDatetime
          date := some (dateOfDatetime tradingDatetime)
          id := currentId + 1
          thisAction := some ⟨action, symbol, amount, some actualPrice⟩
          positions := p2 }
        ((if useAlpaca then "🔴 " else "🔵 ") ++ action ++ " " ++
          toString amount ++ " shares of " ++ symbol)
        actualPrice
    else .keyError
  else if action == "sell" then
    if posGetD currentPosition symbol 0 < (amount : ℤ) then
      .rejected ("Insufficient shares: need " ++ toString amount ++
        ", have " ++ toString (posGetD currentPosition symbol 0))
    else if hasKey currentPosition symbol then
      let p1 := posSet currentPosition symbol
        (posGetD currentPosition symbol 0 - (amount : ℤ))
      let p2 := posSet p1 "CASH"
        (posGetD p1 "CASH" 0 + actualPrice * (amount : ℤ))
      .ok p2
        { datetime := some tradingDatetime
          date := some (dateOfDatetime tradingDatetime)
          id := currentId + 1
          thisAction := some ⟨action, symbol, amount, some actualPrice⟩
          positions := p2 }
        ((if useAlpaca then "🔴 " else "🔵 ") ++ action ++ " " ++
          toString amount ++ " shares of " ++ symbol)
        actualPrice
    else .keyError
  else .rejected ("Invalid action: " ++ action)

/-- Embedding of `TradeExecutor.execute_trade` (execute_trades.py lines
130-215). In Alpaca mode the broker result `(success, filled_price, message)`
of `_execute_alpaca_trade` is a parameter; on broker failure the intent is
rejected with the broker message and nothing is written. -/
def executeTrade (useAlpaca : Bool) (alpacaResult : Bool × Option ℤ × String)
    (action symbol : String) (amount : ℤ) (price : ℤ) (currentPosition : Pos)
    (currentId : ℤ) (tradingDatetime : String) : TradeOutcome :=
  if useAlpaca then
    match alpacaResult with
    | (false, _, msg) => .rejected msg
    | (true, fp, _) =>
      executeTradeCore useAlpaca action symbol amount (fp.getD 0)
        currentPosition currentId tradingDatetime
  else
    executeTradeCore useAlpaca action symbol amount price
      currentPosition currentId tradingDatetime

/-- One decision-payload intent, before the `.lower()`/`.upper()`
normalisation applied by `execute_decision` (execute_trades.py lines
274-276). -/
structure TradeIntent where
  action : String
  symbol : String
  amount : ℤ
  deriving DecidableEq, Repr

/-- What one `execute_decision` session leaves behind: the records appended to
`position.jsonl` in order, the final in-memory `current_position`, and whether
the session was aborted by an uncaught `KeyError`. -/
structure SessionResult where
  commits : List PosRecord
  finalPos : Pos
  aborted : Bool
  deriving DecidableEq, Repr

/-- The per-intent loop of `TradeExecutor.execute_decision` (execute_trades.py
lines 273-295). `i` is the 1-based `enumerate` index; each intent is executed
with `current_id + i - 1` whether or not earlier intents committed; an intent
with no price data is skipped; a rejected intent leaves the position
unchanged; an uncaught `KeyError` aborts the session. `alpacaOf i` is the
broker result for the intent at index `i` (unused in simulation mode). -/
def runTrades (priceOf : String → Option ℤ) (dt : String) (useAlpaca : Bool)
    (alpacaOf : ℕ → Bool × Option ℤ × String) (currentId : ℤ) :
    Pos → ℕ → List TradeIntent → SessionResult
  | pos, _, [] => ⟨[], pos, false⟩
  | pos, i, t :: ts =>
    let action := lowerStr t.action
    let symbol := upperStr t.symbol
    match priceOf symbol with
    | none => runTrades priceOf dt useAlpaca alpacaOf currentId pos (i + 1) ts
    | some price =>
      match executeTrade useAlpaca (alpacaOf i) action symbol t.amount price
        pos (currentId + (i : ℤ) - 1) dt with
      | .ok newPos rec _ _ =>
        let rest := runTrades priceOf dt useAlpaca alpacaOf currentId newPos (i + 1) ts
        ⟨rec :: rest.commits, rest.finalPos, rest.aborted⟩
      | .rejected _ => runTrades priceOf dt useAlpaca alpacaOf currentId pos (i + 1) ts
      | .keyError => ⟨[], pos, true⟩

/-- Embedding of the trading part of `TradeExecutor.execute_decision`
(execute_trades.py lines 256-295): an empty action list appends exactly one
`no_trade` record with `id = current_id + 1` and the unchanged position;
otherwise the per-intent loop runs starting at index 1. -/
def executeDecision (priceOf : String → Option ℤ) (dt : String)
    (date : Option String) (useAlpaca : Bool)
    (alpacaOf : ℕ → Bool × Option ℤ × String) (startPos : Pos) (startId : ℤ)
    (intents : List TradeIntent) : SessionResult :=
  if intents.isEmpty then
    ⟨[{ datetime := some dt, date := date, id := startId + 1
        thisAction := some ⟨"no_trade", "", 0, none⟩
        positions := startPos }], startPos, false⟩
  else runTrades priceOf dt useAlpaca alpacaOf startId startPos 1 intents

/-- The NASDAQ-100 symbol universe of `TradeExecutor.__init__`
(execute_trades.py lines 64-76). -/
def nasdaqSymbols : List String :=
  ["NVDA", "MSFT", "AAPL", "GOOG", "GOOGL", "AMZN", "META", "AVGO", "TSLA",
   "NFLX", "PLTR", "COST", "ASML", "AMD", "CSCO", "AZN", "TMUS", "MU", "LIN",
   "PEP", "SHOP", "APP", "INTU", "AMAT", "LRCX", "PDD", "QCOM", "ARM", "INTC",
   "BKNG", "AMGN", "TXN", "ISRG", "GILD", "KLAC", "PANW", "ADBE", "HON",
   "CRWD", "CEG", "ADI", "ADP", "DASH", "CMCSA", "VRTX", "MELI", "SBUX",
   "CDNS", "ORLY", "SNPS", "MSTR", "MDLZ", "ABNB", "MRVL", "CTAS", "TRI",
   "MAR", "MNST", "CSX", "ADSK", "PYPL", "FTNT", "AEP", "WDAY", "REGN", "ROP",
   "NXPI", "DDOG", "AXON", "ROST", "IDXX", "EA", "PCAR", "FAST", "EXC", "TTWO",
   "XEL", "ZS", "PAYX", "WBD", "BKR", "CPRT", "CCEP", "FANG", "TEAM", "CHTR",
   "KDP", "MCHP", "GEHC", "VRSK", "CTSH", "CSGP", "KHC", "ODFL", "DXCM", "TTD",
   "ON", "BIIB", "LULU", "CDW", "GFS"]

/-- The genesis position written by `ClaudeTrader.initialize_position`
(claude_trader.py lines 58-74): every symbol mapped to 0, then CASH set to the
initial cash (insertion order: symbols first, CASH last). -/
def genesisPosition : Pos :=
  nasdaqSymbols.map (fun s => (s, (0 : ℤ))) ++ [("CASH", 10000)]

/-- The end-of-session portfolio valuation of `TradeExecutor.execute_decision`
(execute_trades.py lines 297-306): start from CASH, and for each symbol of the
configured universe with a positive holding add `shares * price` when
`get_price` returns a truthy value (`if price:` skips both `None` and `0`). -/
def portfolioValue (symbols : List String) (pos : Pos)
    (priceOf : String → Option ℤ) : ℤ :=
  symbols.foldl (fun total s =>
    let shares := posGetD pos s 0
    if 0 < shares then
      match priceOf s with
      | some p => if p == 0 then total else total + shares * p
      | none => total
    else total) (posGetD pos "CASH" 0)

/-- One iteration of the polling loop of `AlpacaTrader.wait_for_order_fill`
(alpaca_trader.py lines 175-206): either a status observation with the filled
quantity and average price, or a poll that raised (network failure). -/
inductive PollResult where
  | status (st : String) (filledQty : ℤ) (filledAvgPrice : ℤ)
  | err
  deriving DecidableEq, Repr

/-- Embedding of `AlpacaTrader.wait_for_order_fill` (alpaca_trader.py lines
175-206) over the finite trace of polls that fit before the deadline (the
60-second timeout polled once per second bounds the trace length; an exhausted
trace is the elapsed deadline, returning `None`). A poll that errors is
retried; a FILLED status returns the fill; CANCELED/EXPIRED/REJECTED return
`None`; anything else keeps waiting. -/
def waitForOrderFill : List PollResult → Option (ℤ × ℤ)
  | [] => none
  | .err :: ps => waitForOrderFill ps
  | .status st q pr :: ps =>
    if upperStr st == "FILLED" then some (q, pr)
    else if upperStr st == "CANCELED" ∨ upperStr st == "EXPIRED" ∨
        upperStr st == "REJECTED" then none
    else waitForOrderFill ps

/-- Embedding of `AlpacaTrader.execute_buy` (alpaca_trader.py lines 208-236):
`placed` is whether `place_market_order` returned an order. Returns the
`(success, filled_price, message)` triple consumed by
`TradeExecutor._execute_alpaca_trade`. -/
def executeBuy (qty : ℤ) (placed : Bool) (polls : List PollResult) :
    Bool × Option ℤ × String :=
  if qty ≤ 0 then (false, none, "Invalid quantity")
  else if !placed then (false, none, "Order placement failed")
  else
    match waitForOrderFill polls with
    | some (_, price) => (true, some price, "Bought shares")
    | none => (false, none, "Order not filled")

/-- Embedding of `AlpacaTrader.execute_sell` (alpaca_trader.py lines 238-266),
identical to `executeBuy` except for the message. -/
def executeSell (qty : ℤ) (placed : Bool) (polls : List PollResult) :
    Bool × Option ℤ × String :=
  if qty ≤ 0 then (false, none, "Invalid quantity")
  else if !placed then (false, none, "Order placement failed")
  else
    match waitForOrderFill polls with
    | some (_, price) => (true, some price, "Sold shares")
    | none => (false, none, "Order not filled")

/-- Modelled from the spec: the replay rule of §8 ("applying each entry's
recorded action to the previous snapshot": buy subtracts price × amount from
cash and adds amount to the symbol's holding, sell is the inverse, no_trade is
the identity), to be compared with the snapshots the executor commits. -/
def replayStep (a : ActionData) (p : Pos) : Pos :=
  if a.action = "buy" then
    let p1 := posSet p "CASH" (posGetD p "CASH" 0 - a.price.getD 0 * (a.amount : ℤ))
    posSet p1 a.symbol (posGetD p1 a.symbol 0 + (a.amount : ℤ))
  else if a.action = "sell" then
    let p1 := posSet p a.symbol (posGetD p a.symbol 0 - (a.amount : ℤ))
    posSet p1 "CASH" (posGetD p1 "CASH" 0 + a.price.getD 0 * (a.amount : ℤ))
  else p

/-- Replay consistency of a chain of committed records against a starting
snapshot: each record's `positions` is its recorded action applied to the
previous snapshot (a record with no `this_action` breaks the chain). -/
def ReplayConsistent : Pos → List PosRecord → Prop
  | _, [] => True
  | p, r :: rs =>
    (∃ a, r.thisAction = some a ∧ r.positions = replayStep a p) ∧
      ReplayConsistent r.positions rs

/-- Modelled from the spec: the Portfolio Valuator formula of §4.4,
`cash + Σ over symbols with holdings > 0 of holdings[symbol] ×
price_map.get(symbol, 0)`, summed over the snapshot's own symbols. -/
def valueSpec (pos : Pos) (priceOf : String → Option ℤ) : ℤ :=
  posGetD pos "CASH" 0 +
    (pos.map (fun kv =>
      if kv.1 ≠ "CASH" ∧ 0 < kv.2 then kv.2 * (priceOf kv.1).getD 0 else 0)).sum

/-- The contribution of one configured symbol to `portfolioValue`, in closed
form: holdings × price when the holding is positive and a price is available,
zero otherwise (a missing or zero price contributes zero either way). -/
def symContrib (pos : Pos) (priceOf : String → Option ℤ) (s : String) : ℤ :=
  if 0 < posGetD pos s 0 then posGetD pos s 0 * (priceOf s).getD 0 else 0

/-- Non-negativity of every quantity in a snapshot. -/
def PosNonNeg (p : Pos) : Prop := ∀ kv ∈ p, (0 : ℤ) ≤ kv.2

instance : DecidablePred PosNonNeg := fun p =>
  inferInstanceAs (Decidable (∀ kv ∈ p, (0 : ℤ) ≤ kv.2))

/-- Strictly increasing sequence ids bounded below: the first committed record
has id ≥ lo and each later one strictly exceeds its predecessor. -/
def IdsAbove (lo : ℤ) : List PosRecord → Prop
  | [] => True
  | r :: rs => lo ≤ r.id ∧ IdsAbove (r.id + 1) rs

/-! ### Lemmas about the dict model -/

theorem posSet_cons (kv : String × ℤ) (rest : Pos) (k : String) (v : ℤ) :
    posSet (kv :: rest) k v =
      if kv.1 = k then (k, v) :: rest else kv :: posSet rest k v := by
  by_cases h : kv.1 = k <;> simp [posSet, h]

theorem posGet?_cons (kv : String × ℤ) (rest : Pos) (k : String) :
    posGet? (kv :: rest) k = if kv.1 = k then some kv.2 else posGet? rest k := by
  by_cases h : kv.1 = k
  · rw [posGet?, List.find?_cons_of_pos _ (by simp [h]), if_pos h]; rfl
  · rw [posGet?, List.find?_cons_of_neg _ (by simp [h]), if_neg h]; rfl

theorem hasKey_cons (kv : String × ℤ) (rest : Pos) (k : String) :
    hasKey (kv :: rest) k = (kv.1 == k || hasKey rest k) := by
  simp [hasKey]

theorem posGet?_posSet_self (p : Pos) (k : String) (v : ℤ) :
    posGet? (posSet p k v) k = some v := by
  induction p with
  | nil => simp [posSet, posGet?_cons]
  | cons kv rest ih =>
    rw [posSet_cons]
    by_cases h1 : kv.1 = k
    · rw [if_pos h1, posGet?_cons]; simp
    · rw [if_neg h1, posGet?_cons, if_neg h1]; exact ih

theorem posGet?_posSet_ne (p : Pos) (k k' : String) (v : ℤ) (h : k' ≠ k) :
    posGet? (posSet p k v) k' = posGet? p k' := by
  induction p with
  | nil =>
    rw [show posSet [] k v = [(k, v)] from rfl, posGet?_cons,
      if_neg (fun hh : (k, v).1 = k' => h hh.symm)]
  | cons kv rest ih =>
    rw [posSet_cons]
    by_cases h1 : kv.1 = k
    · have h2 : ¬ kv.1 = k' := by rw [h1]; exact fun hh => h hh.symm
      rw [if_pos h1, posGet?_cons, if_neg (fun hh : k = k' => h hh.symm),
        posGet?_cons, if_neg h2]
    · rw [if_neg h1, posGet?_cons, posGet?_cons]
      by_cases h3 : kv.1 = k'
      · rw [if_pos h3, if_pos h3]
      · rw [if_neg h3, if_neg h3]; exact ih

theorem posGetD_posSet_self (p : Pos) (k : String) (v d : ℤ) :
    posGetD (posSet p k v) k d = v := by
  simp [posGetD, posGet?_posSet_self]

theorem posGetD_posSet_ne (p : Pos) (k k' : String) (v d : ℤ) (h : k' ≠ k) :
    posGetD (posSet p k v) k' d = posGetD p k' d := by
  simp [posGetD, posGet?_posSet_ne _ _ _ _ h]

theorem hasKey_posSet_self (p : Pos) (k : String) (v : ℤ) :
    hasKey (posSet p k v) k = true := by
  induction p with
  | nil => simp [posSet, hasKey]
  | cons kv rest ih =>
    rw [posSet_cons]
    by_cases h1 : kv.1 = k
    · rw [if_pos h1, hasKey_cons]; simp
    · rw [if_neg h1, hasKey_cons, ih]; simp

theorem hasKey_posSet_of (p : Pos) (k k' : String) (v : ℤ)
    (h : hasKey p k' = true) : hasKey (posSet p k v) k' = true := by
  induction p with
  | nil => simp [hasKey] at h
  | cons kv rest ih =>
    rw [hasKey_cons, Bool.or_eq_true] at h
    rw [posSet_cons]
    by_cases h1 : kv.1 = k
    · rw [if_pos h1, hasKey_cons, Bool.or_eq_true]
      rcases h with h | h
      · left; rw [beq_iff_eq] at h ⊢; rw [← h, h1]
      · right; exact h
    · rw [if_neg h1, hasKey_cons, Bool.or_eq_true]
      rcases h with h | h
      · left; exact h
      · right; exact ih h

theorem posGetD_nonneg (p : Pos) (k : String) (h : PosNonNeg p) :
    0 ≤ posGetD p k 0 := by
  unfold posGetD posGet?
  cases hf : p.find? (fun kv => kv.1 == k) with
  | none => simp
  | some kv =>
    have := h kv (List.mem_of_find?_eq_some hf)
    simpa using this

theorem posNonNeg_posSet (p : Pos) (k : String) (v : ℤ) (h : PosNonNeg p)
    (hv : 0 ≤ v) : PosNonNeg (posSet p k v) := by
  induction p with
  | nil =>
    intro kv hkv
    simp [posSet] at hkv
    rw [hkv]; exact hv
  | cons kv0 rest ih =>
    have hrest : PosNonNeg rest := fun kv hkv => h kv (List.mem_cons_of_mem _ hkv)
    intro kv hkv
    rw [posSet_cons] at hkv
    by_cases h1 : kv0.1 = k
    · rw [if_pos h1, List.mem_cons] at hkv
      rcases hkv with hkv | hkv
      · rw [hkv]; exact hv
      · exact h kv (List.mem_cons_of_mem _ hkv)
    · rw [if_neg h1, List.mem_cons] at hkv
      rcases hkv with hkv | hkv
      · rw [hkv]; exact h kv0 (List.mem_cons_self _ _)
      · exact ih hrest kv hkv

/-! ### Characterisation of a committed trade -/

theorem executeTradeCore_ok {ua : Bool} {action symbol : String}
    {amount price : ℤ} {pos : Pos} {cid : ℤ} {dt : String} {np : Pos}
    {rec : PosRecord} {msg : String} {ap : ℤ}
    (h : executeTradeCore ua action symbol amount price pos cid dt =
      .ok np rec msg ap) :
    ap = price ∧ rec.positions = np ∧ rec.id = cid + 1 ∧
      rec.thisAction = some ⟨action, symbol, amount, some price⟩ ∧
      np = replayStep ⟨action, symbol, amount, some price⟩ pos := by
  simp only [executeTradeCore] at h
  by_cases hb : action = "buy"
  · subst hb
    simp only [beq_self_eq_true, if_true] at h
    by_cases hc : posGetD pos "CASH" 0 < price * amount
    · rw [if_pos hc] at h; simp at h
    · rw [if_neg hc] at h
      by_cases hk : hasKey pos "CASH" = true
      · rw [if_pos hk] at h
        simp only [TradeOutcome.ok.injEq] at h
        obtain ⟨hnp, hrec, _, hap⟩ := h
        refine ⟨hap.symm, ?_, ?_, ?_, ?_⟩
        · rw [← hrec, ← hnp]
        · rw [← hrec]
        · rw [← hrec]
        · rw [← hnp]; simp [replayStep]
      · rw [if_neg hk] at h; simp at h
  · rw [if_neg (by simp [hb])] at h
    by_cases hs : action = "sell"
    · subst hs
      simp only [beq_self_eq_true, if_true] at h
      by_cases hc : posGetD pos symbol 0 < amount
      · rw [if_pos hc] at h; simp at h
      · rw [if_neg hc] at h
        by_cases hk : hasKey pos symbol = true
        · rw [if_pos hk] at h
          simp only [TradeOutcome.ok.injEq] at h
          obtain ⟨hnp, hrec, _, hap⟩ := h
          refine ⟨hap.symm, ?_, ?_, ?_, ?_⟩
          · rw [← hrec, ← hnp]
          · rw [← hrec]
          · rw [← hrec]
          · rw [← hnp]; simp [replayStep]
        · rw [if_neg hk] at h; simp at h
    · rw [if_neg (by simp [hs])] at h; simp at h

theorem executeTrade_ok {ua : Bool} {alp : Bool × Option ℤ × String}
    {action symbol : String} {amount price : ℤ} {pos : Pos} {cid : ℤ}
    {dt : String} {np : Pos} {rec : PosRecord} {msg : String} {ap : ℤ}
    (h : executeTrade ua alp action symbol amount price pos cid dt =
      .ok np rec msg ap) :
    executeTradeCore ua action symbol amount ap pos cid dt =
      .ok np rec msg ap := by
  unfold executeTrade at h
  cases ua with
  | true =>
    obtain ⟨b, fp, m⟩ := alp
    cases b with
    | false => simp at h
    | true =>
      simp only [if_true] at h
      obtain ⟨hap, -⟩ := executeTradeCore_ok h
      rw [hap] at h ⊢; exact h
  | false =>
    simp only [Bool.false_eq_true, if_false] at h
    obtain ⟨hap, -⟩ := executeTradeCore_ok h
    rw [hap] at h ⊢; exact h

theorem executeTradeCore_ok_shape {ua : Bool} {action symbol : String}
    {amount price : ℤ} {pos : Pos} {cid : ℤ} {dt : String} {np : Pos}
    {rec : PosRecord} {msg : String} {ap : ℤ}
    (h : executeTradeCore ua action symbol amount price pos cid dt =
      .ok np rec msg ap) :
    (action = "buy" ∧ price * amount ≤ posGetD pos "CASH" 0 ∧
      hasKey pos "CASH" = true ∧
      np = posSet (posSet pos "CASH" (posGetD pos "CASH" 0 - price * amount))
        symbol
        (posGetD (posSet pos "CASH" (posGetD pos "CASH" 0 - price * amount))
          symbol 0 + amount)) ∨
    (action = "sell" ∧ amount ≤ posGetD pos symbol 0 ∧
      hasKey pos symbol = true ∧
      np = posSet (posSet pos symbol (posGetD pos symbol 0 - amount)) "CASH"
        (posGetD (posSet pos symbol (posGetD pos symbol 0 - amount))
          "CASH" 0 + price * amount)) := by
  simp only [executeTradeCore] at h
  by_cases hb : action = "buy"
  · subst hb
    simp only [beq_self_eq_true, if_true] at h
    by_cases hc : posGetD pos "CASH" 0 < price * amount
    · rw [if_pos hc] at h; simp at h
    · rw [if_neg hc] at h
      by_cases hk : hasKey pos "CASH" = true
      · rw [if_pos hk] at h
        simp only [TradeOutcome.ok.injEq] at h
        obtain ⟨hnp, -, -, -⟩ := h
        exact Or.inl ⟨rfl, not_lt.1 hc, hk, hnp.symm⟩
      · rw [if_neg hk] at h; simp at h
  · rw [if_neg (by simp [hb])] at h
    by_cases hs : action = "sell"
    · subst hs
      simp only [beq_self_eq_true, if_true] at h
      by_cases hc : posGetD pos symbol 0 < amount
      · rw [if_pos hc] at h; simp at h
      · rw [if_neg hc] at h
        by_cases hk : hasKey pos symbol = true
        · rw [if_pos hk] at h
          simp only [TradeOutcome.ok.injEq] at h
          obtain ⟨hnp, -, -, -⟩ := h
          exact Or.inr ⟨rfl, not_lt.1 hc, hk, hnp.symm⟩
        · rw [if_neg hk] at h; simp at h
    · rw [if_neg (by simp [hs])] at h; simp at h

theorem executeTradeCore_ok_nonneg {ua : Bool} {action symbol : String}
    {amount price : ℤ} {pos : Pos} {cid : ℤ} {dt : String} {np : Pos}
    {rec : PosRecord} {msg : String} {ap : ℤ}
    (hamt : 0 ≤ amount) (hpr : 0 ≤ price) (hpos : PosNonNeg pos)
    (h : executeTradeCore ua action symbol amount price pos cid dt =
      .ok np rec msg ap) :
    PosNonNeg np ∧ hasKey np "CASH" = true := by
  rcases executeTradeCore_ok_shape h with ⟨-, hle, hk, hnp⟩ | ⟨-, hle, hk, hnp⟩
  · rw [hnp]
    have h1 : PosNonNeg (posSet pos "CASH" (posGetD pos "CASH" 0 - price * amount)) :=
      posNonNeg_posSet _ _ _ hpos (sub_nonneg.2 hle)
    exact ⟨posNonNeg_posSet _ _ _ h1 (add_nonneg (posGetD_nonneg _ _ h1) hamt),
      hasKey_posSet_of _ _ _ _ (hasKey_posSet_self _ _ _)⟩
  · rw [hnp]
    have h1 : PosNonNeg (posSet pos symbol (posGetD pos symbol 0 - amount)) :=
      posNonNeg_posSet _ _ _ hpos (sub_nonneg.2 hle)
    exact ⟨posNonNeg_posSet _ _ _ h1
      (add_nonneg (posGetD_nonneg _ _ h1) (mul_nonneg hpr hamt)),
      hasKey_posSet_self _ _ _⟩

theorem executeTrade_ok_apNonneg {ua : Bool} {alp : Bool × Option ℤ × String}
    {action symbol : String} {amount price : ℤ} {pos : Pos} {cid : ℤ}
    {dt : String} {np : Pos} {rec : PosRecord} {msg : String} {ap : ℤ}
    (hpr : 0 ≤ price) (halp : 0 ≤ alp.2.1.getD 0)
    (h : executeTrade ua alp action symbol amount price pos cid dt =
      .ok np rec msg ap) : 0 ≤ ap := by
  unfold executeTrade at h
  cases ua with
  | true =>
    obtain ⟨b, fp, m⟩ := alp
    cases b with
    | false => simp at h
    | true =>
      simp only [if_true] at h
      obtain ⟨hap, -⟩ := executeTradeCore_ok h
      rw [hap]; exact halp
  | false =>
    simp only [Bool.false_eq_true, if_false] at h
    obtain ⟨hap, -⟩ := executeTradeCore_ok h
    rw [hap]; exact hpr

/-! ### Session-level invariants -/

theorem runTrades_nil (priceOf : String → Option ℤ) (dt : String) (ua : Bool)
    (alpacaOf : ℕ → Bool × Option ℤ × String) (cid : ℤ) (pos : Pos) (i : ℕ) :
    runTrades priceOf dt ua alpacaOf cid pos i [] = ⟨[], pos, false⟩ := rfl

theorem runTrades_cons_none {priceOf : String → Option ℤ} {dt : String}
    {ua : Bool} {alpacaOf : ℕ → Bool × Option ℤ × String} {cid : ℤ} {pos : Pos}
    {i : ℕ} {t : TradeIntent} {ts : List TradeIntent}
    (h : priceOf (upperStr t.symbol) = none) :
    runTrades priceOf dt ua alpacaOf cid pos i (t :: ts) =
      runTrades priceOf dt ua alpacaOf cid pos (i + 1) ts := by
  simp only [runTrades, h]

theorem runTrades_cons_ok {priceOf : String → Option ℤ} {dt : String}
    {ua : Bool} {alpacaOf : ℕ → Bool × Option ℤ × String} {cid : ℤ} {pos : Pos}
    {i : ℕ} {t : TradeIntent} {ts : List TradeIntent} {price : ℤ} {np : Pos}
    {rec : PosRecord} {msg : String} {ap : ℤ}
    (hp : priceOf (upperStr t.symbol) = some price)
    (hex : executeTrade ua (alpacaOf i) (lowerStr t.action) (upperStr t.symbol)
      t.amount price pos (cid + (i : ℤ) - 1) dt = .ok np rec msg ap) :
    runTrades priceOf dt ua alpacaOf cid pos i (t :: ts) =
      ⟨rec :: (runTrades priceOf dt ua alpacaOf cid np (i + 1) ts).commits,
       (runTrades priceOf dt ua alpacaOf cid np (i + 1) ts).finalPos,
       (runTrades priceOf dt ua alpacaOf cid np (i + 1) ts).aborted⟩ := by
  simp only [runTrades, hp, hex]

theorem runTrades_cons_rejected {priceOf : String → Option ℤ} {dt : String}
    {ua : Bool} {alpacaOf : ℕ → Bool × Option ℤ × String} {cid : ℤ} {pos : Pos}
    {i : ℕ} {t : TradeIntent} {ts : List TradeIntent} {price : ℤ} {m : String}
    (hp : priceOf (upperStr t.symbol) = some price)
    (hex : executeTrade ua (alpacaOf i) (lowerStr t.action) (upperStr t.symbol)
      t.amount price pos (cid + (i : ℤ) - 1) dt = .rejected m) :
    runTrades priceOf dt ua alpacaOf cid pos i (t :: ts) =
      runTrades priceOf dt ua alpacaOf cid pos (i + 1) ts := by
  simp only [runTrades, hp, hex]

theorem runTrades_cons_keyError {priceOf : String → Option ℤ} {dt : String}
    {ua : Bool} {alpacaOf : ℕ → Bool × Option ℤ × String} {cid : ℤ} {pos : Pos}
    {i : ℕ} {t : TradeIntent} {ts : List TradeIntent} {price : ℤ}
    (hp : priceOf (upperStr t.symbol) = some price)
    (hex : executeTrade ua (alpacaOf i) (lowerStr t.action) (upperStr t.symbol)
      t.amount price pos (cid + (i : ℤ) - 1) dt = .keyError) :
    runTrades priceOf dt ua alpacaOf cid pos i (t :: ts) = ⟨[], pos, true⟩ := by
  simp only [runTrades, hp, hex]

theorem runTrades_replay (priceOf : String → Option ℤ) (dt : String) (ua : Bool)
    (alpacaOf : ℕ → Bool × Option ℤ × String) (cid : ℤ) :
    ∀ (ts : List TradeIntent) (pos : Pos) (i : ℕ),
      ReplayConsistent pos (runTrades priceOf dt ua alpacaOf cid pos i ts).commits := by
  intro ts
  induction ts with
  | nil => intro pos i; rw [runTrades_nil]; exact trivial
  | cons t ts ih =>
    intro pos i
    cases hpr : priceOf (upperStr t.symbol) with
    | none => rw [runTrades_cons_none hpr]; exact ih pos (i + 1)
    | some price =>
      cases hex : executeTrade ua (alpacaOf i) (lowerStr t.action)
          (upperStr t.symbol) t.amount price pos (cid + (i : ℤ) - 1) dt with
      | ok np rec msg ap =>
        rw [runTrades_cons_ok hpr hex]
        obtain ⟨hap, hposrec, hid, hact, hrep⟩ :=
          executeTradeCore_ok (executeTrade_ok hex)
        refine ⟨⟨_, hact, ?_⟩, ?_⟩
        · rw [hposrec, hrep]
        · rw [hposrec]; exact ih np (i + 1)
      | rejected m => rw [runTrades_cons_rejected hpr hex]; exact ih pos (i + 1)
      | keyError => rw [runTrades_cons_keyError hpr hex]; exact trivial

theorem runTrades_nonneg (priceOf : String → Option ℤ) (dt : String) (ua : Bool)
    (alpacaOf : ℕ → Bool × Option ℤ × String) (cid : ℤ)
    (hpr : ∀ s p, priceOf s = some p → 0 ≤ p)
    (halp : ∀ i, 0 ≤ ((alpacaOf i).2.1.getD 0)) :
    ∀ (ts : List TradeIntent), (∀ t ∈ ts, 0 ≤ t.amount) →
      ∀ (pos : Pos), PosNonNeg pos → ∀ (i : ℕ),
      ∀ r ∈ (runTrades priceOf dt ua alpacaOf cid pos i ts).commits,
        PosNonNeg r.positions ∧ hasKey r.positions "CASH" = true := by
  intro ts
  induction ts with
  | nil => intro _ pos _ i r hr; rw [runTrades_nil] at hr; simp at hr
  | cons t ts ih =>
    intro hts pos hpos i r hr
    cases hprc : priceOf (upperStr t.symbol) with
    | none =>
      rw [runTrades_cons_none hprc] at hr
      exact ih (fun t' ht' => hts t' (List.mem_cons_of_mem _ ht')) pos hpos (i + 1) r hr
    | some price =>
      cases hex : executeTrade ua (alpacaOf i) (lowerStr t.action)
          (upperStr t.symbol) t.amount price pos (cid + (i : ℤ) - 1) dt with
      | ok np rec msg ap =>
        rw [runTrades_cons_ok hprc hex] at hr
        have hap : 0 ≤ ap :=
          executeTrade_ok_apNonneg (hpr _ _ hprc) (halp i) hex
        have hgood :=
          executeTradeCore_ok_nonneg (hts t (List.mem_cons_self _ _)) hap hpos
            (executeTrade_ok hex)
        have hposrec : rec.positions = np :=
          (executeTradeCore_ok (executeTrade_ok hex)).2.1
        rcases List.mem_cons.1 hr with hr | hr
        · rw [hr, hposrec]; exact hgood
        · exact ih (fun t' ht' => hts t' (List.mem_cons_of_mem _ ht')) np
            hgood.1 (i + 1) r hr
      | rejected m =>
        rw [runTrades_cons_rejected hprc hex] at hr
        exact ih (fun t' ht' => hts t' (List.mem_cons_of_mem _ ht')) pos hpos (i + 1) r hr
      | keyError =>
        rw [runTrades_cons_keyError hprc hex] at hr
        simp at hr

theorem IdsAbove_mono {lo lo' : ℤ} (h : lo' ≤ lo) :
    ∀ {l : List PosRecord}, IdsAbove lo l → IdsAbove lo' l
  | [], _ => trivial
  | _ :: _, ⟨h1, h2⟩ => ⟨le_trans h h1, h2⟩

theorem runTrades_idsAbove (priceOf : String → Option ℤ) (dt : String)
    (ua : Bool) (alpacaOf : ℕ → Bool × Option ℤ × String) (cid : ℤ) :
    ∀ (ts : List TradeIntent) (pos : Pos) (i : ℕ),
      IdsAbove (cid + i) (runTrades priceOf dt ua alpacaOf cid pos i ts).commits := by
  intro ts
  induction ts with
  | nil => intro pos i; rw [runTrades_nil]; exact trivial
  | cons t ts ih =>
    intro pos i
    have hstep : (cid + (i : ℤ)) ≤ cid + ((i : ℕ) + 1 : ℕ) := by push_cast; omega
    cases hpr : priceOf (upperStr t.symbol) with
    | none => rw [runTrades_cons_none hpr]; exact IdsAbove_mono hstep (ih pos (i + 1))
    | some price =>
      cases hex : executeTrade ua (alpacaOf i) (lowerStr t.action)
          (upperStr t.symbol) t.amount price pos (cid + (i : ℤ) - 1) dt with
      | ok np rec msg ap =>
        rw [runTrades_cons_ok hpr hex]
        have hid : rec.id = (cid + (i : ℤ) - 1) + 1 :=
          (executeTradeCore_ok (executeTrade_ok hex)).2.2.1
        refine ⟨by rw [hid]; omega, ?_⟩
        have := ih np (i + 1)
        refine IdsAbove_mono ?_ this
        rw [hid]; push_cast; omega
      | rejected m =>
        rw [runTrades_cons_rejected hpr hex]
        exact IdsAbove_mono hstep (ih pos (i + 1))
      | keyError => rw [runTrades_cons_keyError hpr hex]; exact trivial

/-! ### Reader lemmas -/

theorem readRecords_map_some : ∀ recs : List PosRecord,
    readRecords (recs.map some) = .ok recs
  | [] => rfl
  | r :: rs => by
    rw [List.map_cons, readRecords, readRecords_map_some rs]
    rfl

/-- The records' datetime sort keys are non-decreasing in file order (the
shape a ledger has when every append carries a timestamp no earlier than its
predecessors). -/
def keysSorted : List PosRecord → Bool
  | [] => true
  | [_] => true
  | x :: y :: rest => strLe (sortKey x) (sortKey y) && keysSorted (y :: rest)

theorem stableSortByKey_of_sorted :
    ∀ {l : List PosRecord}, keysSorted l = true → stableSortByKey l = l
  | [], _ => rfl
  | [_], _ => rfl
  | x :: y :: ys, h => by
    rw [keysSorted, Bool.and_eq_true] at h
    obtain ⟨h1, h2⟩ := h
    rw [stableSortByKey, stableSortByKey_of_sorted h2]
    rw [insertByKey, if_pos h1]

theorem claudeScan_map_some : ∀ (recs : List PosRecord) (acc : Pos × ℤ × Option String),
    claudeScan acc (recs.map some) =
      .ok (match recs.getLast? with
           | none => acc
           | some r => (r.positions, r.id, r.date))
  | [], _ => rfl
  | r :: rs, acc => by
    rw [List.map_cons,
      show claudeScan acc (some r :: rs.map some) =
        claudeScan (r.positions, r.id, r.date) (rs.map some) from rfl,
      claudeScan_map_some rs]
    cases rs with
    | nil => rfl
    | cons r2 rs2 =>
      rw [List.getLast?_cons_cons]
      cases hl : (r2 :: rs2).getLast? with
      | none => simp [List.getLast?_eq_none_iff] at hl
      | some z => rfl

/-! ### Concrete fixtures used by witnesses and counterexamples -/

/-- A price map with a single quoted symbol, AAPL at 150. -/
def wPrice : String → Option ℤ := fun s => if s = "AAPL" then some 150 else none

/-- A session timestamp. -/
def wDt : String := "2024-01-02T09:30:00"

/-- A broker-result oracle for simulation-mode runs (unused by them). -/
def wAlp : ℕ → Bool × Option ℤ × String := fun _ => (false, none, "")

/-! ### Claim C1 -/

/-- C1 (amended): `get_latest_position` selects the record with the greatest
datetime sort key, not the greatest sequence id. When the records' datetime
keys are non-decreasing in file order (the normal append pattern), the
executor's reader returns the fields of the physically last record, and the
ClaudeTrader variant returns the physically last record unconditionally; an
empty or absent ledger yields an empty snapshot and sequence id -1. -/
theorem c1_latest_amended (recs : List PosRecord)
    (h : keysSorted recs = true) :
    getLatestPosition (some (recs.map some)) =
      .ok (match recs.getLast? with
           | none => ([], -1, none, none)
           | some r => (r.positions, r.id, r.date, r.datetime)) ∧
    claudeGetLatestPosition (some (recs.map some)) =
      .ok (match recs.getLast? with
           | none => ([], -1, none)
           | some r => (r.positions, r.id, r.date)) ∧
    getLatestPosition none = .ok ([], -1, none, none) ∧
    claudeGetLatestPosition none = .ok ([], -1, none) := by
  refine ⟨?_, ?_, rfl, rfl⟩
  · show (readRecords (recs.map some)).map _ = _
    rw [readRecords_map_some]
    simp only [Except.map, stableSortByKey_of_sorted h]
  · show claudeScan ([], -1, none) (recs.map some) = _
    rw [claudeScan_map_some]

/-- First record of the witness ledger (id 0, earlier datetime). -/
def c1w0 : PosRecord :=
  { datetime := some "2024-01-01T09:30:00", date := some "2024-01-01", id := 0,
    thisAction := none, positions := [("CASH", 10000)] }

/-- Second record of the witness ledger (id 1, later datetime). -/
def c1w1 : PosRecord :=
  { datetime := some "2024-01-02T09:30:00", date := some "2024-01-02", id := 1,
    thisAction := none, positions := [("CASH", 8500)] }

/-- C1 (witness): a two-record ledger whose datetime keys increase in file
order; `latest()` returns the second record (id 1). -/
theorem c1_latest_witness :
    keysSorted [c1w0, c1w1] = true ∧
    getLatestPosition (some ([c1w0, c1w1].map some)) =
      .ok ([("CASH", 8500)], 1, some "2024-01-02", some "2024-01-02T09:30:00") := by
  refine ⟨by decide, ?_⟩
  have h := (c1_latest_amended [c1w0, c1w1] (by decide)).1
  exact h.trans (by rfl)

/-- A stale record carrying the later timestamp but the smaller sequence id. -/
def c1recStale : PosRecord :=
  { datetime := some "2024-01-02T09:30:00", date := some "2024-01-02", id := 0,
    thisAction := none, positions := [("CASH", 100)] }

/-- The record with the maximum sequence id but an earlier timestamp. -/
def c1recNew : PosRecord :=
  { datetime := some "2024-01-01T09:30:00", date := some "2024-01-01", id := 1,
    thisAction := some ⟨"no_trade", "", 0, none⟩, positions := [("CASH", 200)] }

/-- C1 (counterexample): with timestamps out of order, `latest()` returns the
entry with sequence id 0 even though an entry with the maximum sequence id 1
exists and has a different snapshot — contradicting "returns the entry with
the maximum sequence_id regardless of their timestamp fields". -/
theorem c1_latest_counterexample :
    c1recStale.id = 0 ∧ c1recNew.id = 1 ∧
    (∀ r ∈ [c1recStale, c1recNew], r.id ≤ c1recNew.id) ∧
    getLatestPosition (some [some c1recStale, some c1recNew]) =
      .ok (c1recStale.positions, c1recStale.id, c1recStale.date,
        c1recStale.datetime) ∧
    c1recStale.positions ≠ c1recNew.positions :=
  ⟨rfl, rfl, by decide, rfl, by decide⟩

/-! ### Claim C2 -/

/-- C2 (amended): the ledger store has no sequence guard at all — an append is
an unconditional file append that succeeds whatever sequence id the entry
carries, and of two appends issued with the same expected previous sequence
id, both succeed, leaving two records with the same sequence id. -/
theorem c2_append_amended (l : List PosRecord) (r r' : PosRecord)
    (h : r'.id = r.id) :
    appendRecord l r = l ++ [r] ∧
    ((appendRecord (appendRecord l r) r').filter (fun x => x.id == r.id)).length =
      (l.filter (fun x => x.id == r.id)).length + 2 := by
  refine ⟨rfl, ?_⟩
  unfold appendRecord
  rw [List.filter_append, List.filter_append, List.length_append,
    List.length_append]
  simp [h]

/-- The genesis record of the C2 scenario (latest sequence id 0). -/
def c2genesis : PosRecord :=
  { datetime := none, date := some "2024-01-01", id := 0, thisAction := none,
    positions := [("CASH", 10000)] }

/-- First of two racing appends, both expecting previous sequence id 0. -/
def c2e1 : PosRecord :=
  { datetime := some "2024-01-02T09:30:00", date := some "2024-01-02", id := 1,
    thisAction := some ⟨"buy", "AAPL", 10, some 150⟩,
    positions := [("CASH", 8500), ("AAPL", 10)] }

/-- Second racing append, also expecting previous sequence id 0. -/
def c2e2 : PosRecord :=
  { datetime := some "2024-01-02T09:35:00", date := some "2024-01-02", id := 1,
    thisAction := some ⟨"buy", "MSFT", 5, some 100⟩,
    positions := [("CASH", 9500), ("MSFT", 5)] }

/-- An append whose sequence id (5) is not the latest id plus one. -/
def c2e5 : PosRecord :=
  { datetime := some "2024-01-03T09:30:00", date := some "2024-01-03", id := 5,
    thisAction := some ⟨"no_trade", "", 0, none⟩,
    positions := [("CASH", 10000)] }

/-- C2 (counterexample): both of two appends carrying the same sequence id 1
over latest id 0 are committed (nothing fails, no `SequenceConflict` exists in
the code), and an append with sequence id 5 over latest id 0 is committed as
well — contradicting "the store rejects the append" and "exactly one
succeeds". -/
theorem c2_append_counterexample :
    c2e1.id = c2e2.id ∧
    appendRecord (appendRecord [c2genesis] c2e1) c2e2 =
      [c2genesis, c2e1, c2e2] ∧
    ((appendRecord (appendRecord [c2genesis] c2e1) c2e2).filter
      (fun r => r.id == 1)).length = 2 ∧
    c2e5.id ≠ c2genesis.id + 1 ∧
    appendRecord [c2genesis] c2e5 = [c2genesis, c2e5] :=
  ⟨rfl, rfl, by decide, by decide, rfl⟩

/-- C2 (witness): the amended statement applied to the concrete race. -/
theorem c2_append_witness :
    c2e2.id = c2e1.id ∧
    (appendRecord [c2genesis] c2e1 = [c2genesis] ++ [c2e1] ∧
      ((appendRecord (appendRecord [c2genesis] c2e1) c2e2).filter
        (fun x => x.id == c2e1.id)).length =
        (([c2genesis] : List PosRecord).filter
          (fun x => x.id == c2e1.id)).length + 2) :=
  ⟨by decide, c2_append_amended [c2genesis] c2e1 c2e2 (by decide)⟩

/-! ### Claim C3 -/

/-- C3 (confirmed): replay determinism. For every execution session — any
start snapshot and sequence id (in particular the genesis entry's), any price
oracle, any mode and broker results, and any intent list — every record the
executor commits carries a snapshot equal to its recorded action (buy:
subtract price × amount from cash and add amount to the symbol's holding;
sell: the inverse; no_trade: identity) applied to the previous record's
snapshot, the session's start snapshot for the first commit. -/
theorem c3_replay_determinism (priceOf : String → Option ℤ) (dt : String)
    (date : Option String) (ua : Bool)
    (alpacaOf : ℕ → Bool × Option ℤ × String) (startPos : Pos) (startId : ℤ)
    (intents : List TradeIntent) :
    ReplayConsistent startPos
      (executeDecision priceOf dt date ua alpacaOf startPos startId
        intents).commits := by
  unfold executeDecision
  by_cases h : intents.isEmpty
  · rw [if_pos h]
    exact ⟨⟨⟨"no_trade", "", 0, none⟩, rfl, by simp [replayStep]⟩, trivial⟩
  · rw [if_neg h]
    exact runTrades_replay priceOf dt ua alpacaOf startId intents startPos 1

/-- C3 (witness): the replay invariant instantiated on a concrete two-intent
session from the genesis snapshot, checked by evaluation. -/
theorem c3_replay_witness :
    ReplayConsistent [("CASH", 10000)]
      (executeDecision wPrice wDt (some "2024-01-02") false wAlp
        [("CASH", 10000)] 0
        [⟨"buy", "AAPL", 10⟩, ⟨"sell", "AAPL", 4⟩]).commits :=
  c3_replay_determinism wPrice wDt (some "2024-01-02") false wAlp
    [("CASH", 10000)] 0 [⟨"buy", "AAPL", 10⟩, ⟨"sell", "AAPL", 4⟩]

/-! ### Claim C4 -/

/-- C4 (amended): within one session, committed sequence ids are strictly
increasing and strictly greater than the session-start id — but not
necessarily by exactly 1: the intent at 1-based position i commits id
start + i, so intents skipped for missing prices or rejected by validation
leave gaps in the id sequence. -/
theorem c4_ids_amended (priceOf : String → Option ℤ) (dt : String)
    (date : Option String) (ua : Bool)
    (alpacaOf : ℕ → Bool × Option ℤ × String) (startPos : Pos) (startId : ℤ)
    (intents : List TradeIntent) :
    IdsAbove (startId + 1)
      (executeDecision priceOf dt date ua alpacaOf startPos startId
        intents).commits := by
  unfold executeDecision
  by_cases h : intents.isEmpty
  · rw [if_pos h]
    exact ⟨le_refl _, trivial⟩
  · rw [if_neg h]
    have := runTrades_idsAbove priceOf dt ua alpacaOf startId intents startPos 1
    simpa using this

/-- C4 (witness): strict monotonicity of committed ids on a concrete session
whose three intents all commit (ids 1, 2, 3 after start id 0). -/
theorem c4_ids_witness :
    IdsAbove (0 + 1)
      (executeDecision wPrice wDt (some "2024-01-02") false wAlp
        [("CASH", 10000)] 0
        [⟨"buy", "AAPL", 10⟩, ⟨"sell", "AAPL", 4⟩, ⟨"buy", "AAPL", 1⟩]).commits :=
  c4_ids_amended wPrice wDt (some "2024-01-02") false wAlp [("CASH", 10000)] 0
    [⟨"buy", "AAPL", 10⟩, ⟨"sell", "AAPL", 4⟩, ⟨"buy", "AAPL", 1⟩]

/-- C4 (counterexample): a session starting at latest id 0 whose first intent
is skipped (no price for FOO) and whose second commits: the committed entry
carries id 2, not previously-committed-id + 1 = 1 — the executor numbers
intents by list position (current_id + i), not by commits. -/
theorem c4_ids_counterexample :
    (executeDecision wPrice wDt (some "2024-01-02") false wAlp
      [("CASH", 10000)] 0
      [⟨"buy", "FOO", 1⟩, ⟨"buy", "AAPL", 10⟩]).commits.map (·.id) = [2] ∧
    (2 : ℤ) ≠ 0 + 1 :=
  ⟨by decide, by decide⟩

/-! ### Claim C5 -/

/-- C5 (amended): when every intent amount is non-negative, every available
price is non-negative, and the session starts from a snapshot that contains
the CASH key and only non-negative quantities (all true of the genesis
snapshot and of decision payloads respecting the spec's intent type), every
committed record's snapshot again contains CASH and only non-negative
quantities — the validation guards then prevent overdrafts and short
selling. -/
theorem c5_nonneg_amended (priceOf : String → Option ℤ) (dt : String)
    (date : Option String) (ua : Bool)
    (alpacaOf : ℕ → Bool × Option ℤ × String) (startPos : Pos) (startId : ℤ)
    (intents : List TradeIntent)
    (hpr : ∀ s p, priceOf s = some p → 0 ≤ p)
    (halp : ∀ i, 0 ≤ ((alpacaOf i).2.1.getD 0))
    (hts : ∀ t ∈ intents, 0 ≤ t.amount)
    (hpos : PosNonNeg startPos)
    (hkey : hasKey startPos "CASH" = true) :
    ∀ r ∈ (executeDecision priceOf dt date ua alpacaOf startPos startId
        intents).commits,
      PosNonNeg r.positions ∧ hasKey r.positions "CASH" = true := by
  unfold executeDecision
  by_cases h : intents.isEmpty
  · rw [if_pos h]
    intro r hr
    simp only [List.mem_singleton] at hr
    rw [hr]
    exact ⟨hpos, hkey⟩
  · rw [if_neg h]
    exact runTrades_nonneg priceOf dt ua alpacaOf startId hpr halp intents hts
      startPos hpos 1

/-- C5 (witness): the invariant on a concrete session: buy 10 AAPL then sell
4, starting from genesis cash 10000; both committed snapshots are
non-negative and carry CASH. -/
theorem c5_nonneg_witness :
    (∀ t ∈ ([⟨"buy", "AAPL", 10⟩, ⟨"sell", "AAPL", 4⟩] : List TradeIntent),
      0 ≤ t.amount) ∧
    PosNonNeg [("CASH", 10000)] ∧
    hasKey [("CASH", 10000)] "CASH" = true ∧
    (∀ r ∈ (executeDecision wPrice wDt (some "2024-01-02") false wAlp
        [("CASH", 10000)] 0
        [⟨"buy", "AAPL", 10⟩, ⟨"sell", "AAPL", 4⟩]).commits,
      PosNonNeg r.positions ∧ hasKey r.positions "CASH" = true) :=
  ⟨by decide, by decide, by decide,
    c5_nonneg_amended wPrice wDt (some "2024-01-02") false wAlp
      [("CASH", 10000)] 0 [⟨"buy", "AAPL", 10⟩, ⟨"sell", "AAPL", 4⟩]
      (fun s p hp => by
        by_cases hs : s = "AAPL"
        · simp [wPrice, hs] at hp; omega
        · simp [wPrice, hs] at hp)
      (fun i => by simp [wAlp])
      (by decide) (by decide) (by decide)⟩

/-- C5 (counterexample): a decision payload carrying amount -10 — accepted by
the executor, since the guards compare against a negative required cash and a
negative share requirement — commits a ledger entry whose snapshot holds
-10 AAPL shares, contradicting "every symbol's share quantity is non-negative
for any amount taken from the decision payload". -/
theorem c5_nonneg_counterexample :
    (executeDecision wPrice wDt (some "2024-01-02") false wAlp
      [("CASH", 1000)] 0
      [⟨"buy", "AAPL", -10⟩]).commits.map (fun r => (r.id, r.positions)) =
      [(1, [("CASH", 2500), ("AAPL", -10)])] ∧
    posGetD [("CASH", 2500), ("AAPL", -10)] "AAPL" 0 < 0 :=
  ⟨by decide, by decide⟩

/-! ### Claim C6 -/

/-- C6 (confirmed): for every accepted (committed) intent on a symbol other
than the reserved CASH key, buy subtracts fill_price × quantity from cash and
adds quantity to the symbol's holding, sell adds fill_price × quantity to cash
and subtracts quantity from the holding, every other symbol's holding is
unchanged, and the committed record carries sequence id current_id + 1 and the
new snapshot. The genesis scenario (buy AAPL 10 at 150 in simulation mode
yielding CASH 8500, AAPL 10, sequence id 1) is the witness below. -/
theorem c6_update_formula (ua : Bool) (alp : Bool × Option ℤ × String)
    (action symbol : String) (amount price : ℤ) (pos : Pos) (cid : ℤ)
    (dt : String) (np : Pos) (rec : PosRecord) (msg : String) (ap : ℤ)
    (hsym : symbol ≠ "CASH")
    (hex : executeTrade ua alp action symbol amount price pos cid dt =
      .ok np rec msg ap) :
    rec.id = cid + 1 ∧ rec.positions = np ∧
    (action = "buy" →
      posGetD np "CASH" 0 = posGetD pos "CASH" 0 - ap * amount ∧
      posGetD np symbol 0 = posGetD pos symbol 0 + amount) ∧
    (action = "sell" →
      posGetD np "CASH" 0 = posGetD pos "CASH" 0 + ap * amount ∧
      posGetD np symbol 0 = posGetD pos symbol 0 - amount) ∧
    (∀ k, k ≠ "CASH" → k ≠ symbol → posGetD np k 0 = posGetD pos k 0) := by
  have hcore := executeTrade_ok hex
  obtain ⟨-, hposrec, hid, -, -⟩ := executeTradeCore_ok hcore
  refine ⟨hid, hposrec, ?_, ?_, ?_⟩ <;>
    rcases executeTradeCore_ok_shape hcore with ⟨ha, -, -, hnp⟩ | ⟨ha, -, -, hnp⟩
  · intro _
    rw [hnp]
    constructor
    · rw [posGetD_posSet_ne _ _ _ _ _ (Ne.symm hsym), posGetD_posSet_self]
    · rw [posGetD_posSet_self, posGetD_posSet_ne _ _ _ _ _ hsym]
  · intro hb; rw [ha] at hb; exact absurd hb (by decide)
  · intro hs; rw [ha] at hs; exact absurd hs (by decide)
  · intro _
    rw [hnp]
    constructor
    · rw [posGetD_posSet_self, posGetD_posSet_ne _ _ _ _ _ (Ne.symm hsym)]
    · rw [posGetD_posSet_ne _ _ _ _ _ hsym, posGetD_posSet_self]
  · intro k hkc hks
    rw [hnp, posGetD_posSet_ne _ _ _ _ _ hks, posGetD_posSet_ne _ _ _ _ _ hkc]
  · intro k hkc hks
    rw [hnp, posGetD_posSet_ne _ _ _ _ _ hkc, posGetD_posSet_ne _ _ _ _ _ hks]

/-- The outcome of the spec's genesis scenario: buy AAPL 10 at reference price
150 in simulation mode against the genesis snapshot, current id 0. -/
def c6outcome : TradeOutcome :=
  executeTrade false (false, none, "") "buy" "AAPL" 10 150 genesisPosition 0 wDt

/-- The new snapshot of the genesis scenario. -/
def c6pos : Pos :=
  match c6outcome with
  | .ok np _ _ _ => np
  | _ => []

/-- The ledger record committed by the genesis scenario. -/
def c6rec : PosRecord :=
  match c6outcome with
  | .ok _ r _ _ => r
  | _ => ⟨none, none, 0, none, []⟩

/-- C6 (witness): the spec's scenario evaluated: from genesis
{CASH 10000, all symbols 0}, buy AAPL 10 at 150 commits a record with
sequence id 1 whose snapshot has CASH 8500 and AAPL 10, and the general
update formulas hold at it. -/
theorem c6_update_witness :
    (("AAPL" : String) ≠ "CASH") ∧
    (c6rec.id = 0 + 1 ∧ c6rec.positions = c6pos ∧
      (("buy" : String) = "buy" →
        posGetD c6pos "CASH" 0 = posGetD genesisPosition "CASH" 0 - 150 * 10 ∧
        posGetD c6pos "AAPL" 0 = posGetD genesisPosition "AAPL" 0 + 10) ∧
      (("buy" : String) = "sell" →
        posGetD c6pos "CASH" 0 = posGetD genesisPosition "CASH" 0 + 150 * 10 ∧
        posGetD c6pos "AAPL" 0 = posGetD genesisPosition "AAPL" 0 - 10) ∧
      (∀ k, k ≠ "CASH" → k ≠ "AAPL" →
        posGetD c6pos k 0 = posGetD genesisPosition k 0)) ∧
    posGetD c6pos "CASH" 0 = 8500 ∧ posGetD c6pos "AAPL" 0 = 10 ∧
    c6rec.id = 1 :=
  ⟨by decide,
    c6_update_formula false (false, none, "") "buy" "AAPL" 10 150
      genesisPosition 0 wDt c6pos c6rec "🔵 buy 10 shares of AAPL" 150
      (by decide) (by decide),
    by decide, by decide, by decide⟩

/-! ### Claim C7 -/

/-- C7 (confirmed): a buy intent whose cost exceeds the available cash is
rejected with the "Insufficient cash" message, nothing is appended to the
ledger (the outcome carries no record, so `latest()` is unchanged), and the
session continues with the remaining intents exactly as if the rejected
intent had not appeared (only the enumeration index advances). -/
theorem c7_insufficient_cash (priceOf : String → Option ℤ) (dt : String)
    (alpacaOf : ℕ → Bool × Option ℤ × String) (cid : ℤ) (pos : Pos) (i : ℕ)
    (t : TradeIntent) (ts : List TradeIntent) (price : ℤ)
    (ha : lowerStr t.action = "buy")
    (hp : priceOf (upperStr t.symbol) = some price)
    (hc : posGetD pos "CASH" 0 < price * t.amount) :
    executeTrade false (alpacaOf i) (lowerStr t.action) (upperStr t.symbol)
        t.amount price pos (cid + (i : ℤ) - 1) dt =
      .rejected ("Insufficient cash: need $" ++ toString (price * t.amount) ++
        ", have $" ++ toString (posGetD pos "CASH" 0)) ∧
    runTrades priceOf dt false alpacaOf cid pos i (t :: ts) =
      runTrades priceOf dt false alpacaOf cid pos (i + 1) ts := by
  have hrej : executeTrade false (alpacaOf i) (lowerStr t.action)
      (upperStr t.symbol) t.amount price pos (cid + (i : ℤ) - 1) dt =
      .rejected ("Insufficient cash: need $" ++ toString (price * t.amount) ++
        ", have $" ++ toString (posGetD pos "CASH" 0)) := by
    unfold executeTrade
    simp only [Bool.false_eq_true, if_false]
    rw [ha]
    simp only [executeTradeCore, beq_self_eq_true, if_true]
    rw [if_pos hc]
  exact ⟨hrej, runTrades_cons_rejected hp hrej⟩

/-- C7 (witness): with cash 100, the intent "BUY aapl 10" at price 150
(cost 1500) is rejected with the insufficient-cash message, and the remaining
intent of the session is still processed (the session equals the session of
the remaining intents alone). -/
theorem c7_insufficient_cash_witness :
    lowerStr "BUY" = "buy" ∧
    wPrice (upperStr "aapl") = some 150 ∧
    posGetD [("CASH", 100)] "CASH" 0 < 150 * 10 ∧
    (executeTrade false (wAlp 1) (lowerStr "BUY") (upperStr "aapl") 10 150
        [("CASH", 100)] (0 + (1 : ℤ) - 1) wDt =
      .rejected ("Insufficient cash: need $" ++ toString ((150 : ℤ) * 10) ++
        ", have $" ++ toString (posGetD [("CASH", 100)] "CASH" 0)) ∧
    runTrades wPrice wDt false wAlp 0 [("CASH", 100)] 1
        [⟨"BUY", "aapl", 10⟩, ⟨"buy", "AAPL", 0⟩] =
      runTrades wPrice wDt false wAlp 0 [("CASH", 100)] 2
        [⟨"buy", "AAPL", 0⟩]) :=
  ⟨by decide, by decide, by decide,
    c7_insufficient_cash wPrice wDt wAlp 0 [("CASH", 100)] 1
      ⟨"BUY", "aapl", 10⟩ [⟨"buy", "AAPL", 0⟩] 150
      (by decide) (by decide) (by decide)⟩

/-! ### Claim C8 -/

theorem readRecords_error : ∀ {lines : List (Option PosRecord)},
    none ∈ lines → readRecords lines = .error ()
  | none :: _, _ => rfl
  | some r :: ls, h => by
    have hmem : none ∈ ls := by
      rcases List.mem_cons.1 h with h1 | h1
      · exact absurd h1 (by simp)
      · exact h1
    rw [readRecords, readRecords_error hmem]
    rfl

theorem claudeScan_error : ∀ {lines : List (Option PosRecord)}
    (acc : Pos × ℤ × Option String),
    none ∈ lines → claudeScan acc lines = .error ()
  | none :: _, _, _ => rfl
  | some r :: ls, acc, h => by
    have hmem : none ∈ ls := by
      rcases List.mem_cons.1 h with h1 | h1
      · exact absurd h1 (by simp)
      · exact h1
    exact claudeScan_error (r.positions, r.id, r.date) hmem

/-- C8 (amended): the readers do NOT tolerate unreadable records — one
unreadable line anywhere (in particular a partial trailing record after a
crash mid-write) makes the whole read fail with the uncaught `json.loads`
exception, in both reader variants; only a file whose every non-blank line
parses is read successfully. -/
theorem c8_reader_amended (lines : List (Option PosRecord))
    (h : none ∈ lines) :
    getLatestPosition (some lines) = .error () ∧
    claudeGetLatestPosition (some lines) = .error () ∧
    (∀ recs : List PosRecord, readRecords (recs.map some) = .ok recs) := by
  refine ⟨?_, ?_, readRecords_map_some⟩
  · show (readRecords lines).map _ = _
    rw [readRecords_error h]
    rfl
  · exact claudeScan_error _ h

/-- A well-formed record preceding the corrupted trailing line. -/
def c8gen : PosRecord :=
  { datetime := some "2024-01-02T09:30:00", date := some "2024-01-02", id := 0,
    thisAction := none, positions := [("CASH", 10000)] }

/-- C8 (counterexample): a ledger whose trailing record is unreadable: the
readable prefix alone yields the latest state (id 0), but reading the full
file fails as a whole instead of ignoring the trailing record — contradicting
"the read never fails as a whole". -/
theorem c8_reader_counterexample :
    getLatestPosition (some [some c8gen]) =
      .ok (c8gen.positions, c8gen.id, c8gen.date, c8gen.datetime) ∧
    getLatestPosition (some [some c8gen, none]) = .error () ∧
    claudeGetLatestPosition (some [some c8gen, none]) = .error () :=
  ⟨rfl, rfl, rfl⟩

/-- C8 (witness): the amended statement applied to the concrete corrupted
file. -/
theorem c8_reader_witness :
    (none ∈ [some c8gen, none]) ∧
    (getLatestPosition (some [some c8gen, none]) = .error () ∧
     claudeGetLatestPosition (some [some c8gen, none]) = .error () ∧
     (∀ recs : List PosRecord, readRecords (recs.map some) = .ok recs)) :=
  ⟨by decide, c8_reader_amended [some c8gen, none] (by decide)⟩

/-! ### Claim C9 -/

theorem waitForOrderFill_none : ∀ {polls : List PollResult},
    (∀ st q pr, PollResult.status st q pr ∈ polls → upperStr st ≠ "FILLED") →
    waitForOrderFill polls = none
  | [], _ => rfl
  | .err :: ps, h => by
    rw [waitForOrderFill]
    exact waitForOrderFill_none
      (fun st q pr hm => h st q pr (List.mem_cons_of_mem _ hm))
  | .status st q pr :: ps, h => by
    rw [waitForOrderFill]
    have hne : (upperStr st == "FILLED") = false := by
      simp [h st q pr (List.mem_cons_self _ _)]
    rw [hne]
    simp only [Bool.false_eq_true, if_false]
    split
    · rfl
    · exact waitForOrderFill_none
        (fun st' q' pr' hm => h st' q' pr' (List.mem_cons_of_mem _ hm))

/-- C9 (confirmed): if no poll before the deadline observes status FILLED —
in particular when the order stays pending until the deadline elapses, or
reaches a terminal canceled/expired/rejected status — the fill waiter returns
no fill; polls that raise are retried rather than terminating the wait; and
the executor then rejects the intent without producing any ledger record, in
both the buy and the sell path. -/
theorem c9_no_fill_rejected (polls : List PollResult)
    (h : ∀ st q pr, PollResult.status st q pr ∈ polls →
      upperStr st ≠ "FILLED")
    (action symbol : String) (amount price : ℤ) (pos : Pos) (cid : ℤ)
    (dt : String) (qty : ℤ) (placed : Bool) :
    waitForOrderFill polls = none ∧
    (∀ ps, waitForOrderFill (.err :: ps) = waitForOrderFill ps) ∧
    (∃ m, executeTrade true (executeBuy qty placed polls) action symbol amount
      price pos cid dt = .rejected m) ∧
    (∃ m, executeTrade true (executeSell qty placed polls) action symbol amount
      price pos cid dt = .rejected m) := by
  have hw : waitForOrderFill polls = none := waitForOrderFill_none h
  refine ⟨hw, fun ps => rfl, ?_, ?_⟩
  · unfold executeBuy
    split
    · exact ⟨_, rfl⟩
    · split
      · exact ⟨_, rfl⟩
      · rw [hw]; exact ⟨_, rfl⟩
  · unfold executeSell
    split
    · exact ⟨_, rfl⟩
    · split
      · exact ⟨_, rfl⟩
      · rw [hw]; exact ⟨_, rfl⟩

/-- The poll trace of the C9 witness: a pending status, an erroring poll,
then the deadline elapses with no terminal FILLED observation. -/
def c9polls : List PollResult :=
  [.status "pending_new" 0 0, .err, .status "partially_filled" 3 150]

/-- C9 (witness): on the concrete no-fill poll trace, the waiter returns no
fill and a buy intent in broker mode is rejected with no record. -/
theorem c9_no_fill_witness :
    waitForOrderFill c9polls = none ∧
    (∀ ps, waitForOrderFill (.err :: ps) = waitForOrderFill ps) ∧
    (∃ m, executeTrade true (executeBuy 10 true c9polls) "buy" "AAPL" 10 150
      [("CASH", 10000)] 0 wDt = .rejected m) ∧
    (∃ m, executeTrade true (executeSell 10 true c9polls) "sell" "AAPL" 10 150
      [("CASH", 10000)] 0 wDt = .rejected m) :=
  c9_no_fill_rejected c9polls
    (by
      intro st q pr hm
      simp only [c9polls, List.mem_cons, List.not_mem_nil, or_false] at hm
      rcases hm with hm | hm | hm <;> first
        | (obtain ⟨rfl, -, -⟩ := PollResult.status.inj hm; decide)
        | exact absurd hm (by decide)
        | simp at hm)
    "buy" "AAPL" 10 150 [("CASH", 10000)] 0 wDt 10 true

/-! ### Claim C10 -/

theorem foldl_add_map (f : String → ℤ) :
    ∀ (l : List String) (a : ℤ),
      l.foldl (fun t s => t + f s) a = a + (l.map f).sum
  | [], a => by simp
  | s :: l, a => by
    rw [List.foldl_cons, foldl_add_map f l, List.map_cons, List.sum_cons]
    ring

/-- C10 (amended): the end-of-session valuation equals cash plus the sum of
`symContrib` over the CONFIGURED symbol universe (the NASDAQ-100 list), where
a symbol contributes holdings × price when its holding is positive and zero
when its price is missing or zero; holdings in symbols outside the configured
list are ignored entirely, and no list of zero-priced symbols is produced
anywhere — the function returns only the total. -/
theorem c10_value_amended (symbols : List String) (pos : Pos)
    (priceOf : String → Option ℤ) :
    portfolioValue symbols pos priceOf =
      posGetD pos "CASH" 0 + (symbols.map (symContrib pos priceOf)).sum := by
  unfold portfolioValue
  have hbody : (fun (total : ℤ) (s : String) =>
      if 0 < posGetD pos s 0 then
        match priceOf s with
        | some p => if p == 0 then total else total + posGetD pos s 0 * p
        | none => total
      else total) = fun (t : ℤ) (s : String) => t + symContrib pos priceOf s := by
    funext total s
    unfold symContrib
    by_cases h1 : 0 < posGetD pos s 0
    · rw [if_pos h1, if_pos h1]
      cases hp : priceOf s with
      | none => simp
      | some p =>
        by_cases h2 : p = 0
        · simp [h2]
        · simp [h2]
    · rw [if_neg h1, if_neg h1]
      ring
  rw [hbody, foldl_add_map]

/-- A snapshot holding 5 shares of FOO, a symbol outside the configured
NASDAQ-100 universe. -/
def c10pos : Pos := [("CASH", 100), ("FOO", 5)]

/-- A price map quoting FOO at 10. -/
def c10price : String → Option ℤ := fun s => if s = "FOO" then some 10 else none

/-- C10 (counterexample): the spec's formula sums over the snapshot's own
symbols with positive holdings (`valueSpec`), which values the FOO position
at 50; the code iterates only the configured symbol list, so the out-of-
universe holding is ignored and the totals disagree — and the code reports no
list of zero-priced symbols at all. -/
theorem c10_value_counterexample :
    portfolioValue nasdaqSymbols c10pos c10price = 100 ∧
    valueSpec c10pos c10price = 150 ∧
    portfolioValue nasdaqSymbols c10pos c10price ≠ valueSpec c10pos c10price :=
  ⟨by decide, by decide, by decide⟩

/-- C10 (witness): the amended closed form evaluated on a concrete in-universe
snapshot (10 AAPL at price 150 plus cash 8500 gives 10000). -/
theorem c10_value_witness :
    portfolioValue nasdaqSymbols [("CASH", 8500), ("AAPL", 10)] wPrice =
      posGetD [("CASH", 8500), ("AAPL", 10)] "CASH" 0 +
        (nasdaqSymbols.map
          (symContrib [("CASH", 8500), ("AAPL", 10)] wPrice)).sum ∧
    portfolioValue nasdaqSymbols [("CASH", 8500), ("AAPL", 10)] wPrice = 10000 :=
  ⟨c10_value_amended nasdaqSymbols [("CASH", 8500), ("AAPL", 10)] wPrice,
    by decide⟩
